import Mathlib

/-!
# SynapseVisionLab — shallow embedding of the signal-processing core

This file embeds, in Lean 4, the parts of the SynapseVisionLab C++ sources
that the verified claims are about:

* the data model `EEGChannel` / `EEGData` (src/DataModels/EEGData.h and its
  implementation in src/FileHandlers/EEGFileHandler.cpp's third section),
* the real EDF loader `loadEDF` and the CSV writer `saveCSV`
  (src/FileHandlers/EEGFileHandler.cpp, second section),
* the `SignalProcessor` functions `bandpassFilter`, `extractTimeWindow`,
  `applyAverageReference`, `applyBipolarMontage`, `applyLaplacianMontage`
  and the `applyMontage` dispatcher (the Butterworth-era SignalProcessor
  header), and
* the window-count / index arithmetic of `MainWindow::showSpectrogram`.

Modelling conventions:

* C++ `double` values are embedded as exact rationals `ℚ`.  Finite doubles
  are represented exactly; rounding and overflow of finite arithmetic are
  not modelled.  Because several functions branch on `std::isnan` /
  `std::isfinite`, sample values are embedded as the type `FP` below, which
  keeps NaN and the two infinities as explicit constructors.
* Byte files are `List Nat`, one entry per byte.  16-bit EDF samples are
  decoded exactly as in the source (little-endian, two's complement); the
  host is taken to be little-endian, so the big-endian byte-swap branch of
  the source is the identity here.
* C++ `int` arithmetic is embedded as `ℤ` with `Int.tdiv` (truncation
  toward zero) wherever the source divides two ints, and casts
  `double → int` are truncation toward zero (`ratTrunc`).
* Qt string handling (`QString::trimmed`, `toInt`, `toDouble`,
  `fromLatin1`) is embedded byte-by-byte on the Latin-1 bytes; `toDouble`
  is modelled on the C-locale fixed/scientific forms that can occur in an
  EDF numeric header field.
* In-place mutation is modelled by returning the new value; the Qt signal
  emissions (`dataChanged` etc.) are not modelled.
-/

/-- An IEEE-754 double as the montage/filter code observes it: either a
finite value (embedded exactly as a rational) or one of the non-finite
values NaN, `+inf`, `-inf` that `std::isfinite` / `std::isnan` test for. -/
inductive FP where
  | fin (q : ℚ)
  | nan
  | pinf
  | ninf
deriving DecidableEq

/-- `std::isfinite` on the embedded double. -/
def FP.isFinite : FP → Bool
  | .fin _ => true
  | _ => false

/-- `std::isnan` on the embedded double. -/
def FP.isNaN : FP → Bool
  | .nan => true
  | _ => false

/-- IEEE subtraction on embedded doubles (finite-finite overflow is not
modelled: finite minus finite is the exact rational difference). -/
def FP.sub : FP → FP → FP
  | .nan, _ => .nan
  | _, .nan => .nan
  | .pinf, .pinf => .nan
  | .pinf, _ => .pinf
  | .ninf, .ninf => .nan
  | .ninf, _ => .ninf
  | .fin _, .pinf => .ninf
  | .fin _, .ninf => .pinf
  | .fin a, .fin b => .fin (a - b)

/-- The rational carried by a finite value, `0` for non-finite values. -/
def FP.toQ : FP → ℚ
  | .fin q => q
  | _ => 0

/-- Channel record of `struct EEGChannel` (EEGData.h).  The numeric field
defaults are the in-class initializers of the C++ struct. -/
structure EEGChannel where
  label : String
  unit : String
  physicalMin : ℚ := -1000
  physicalMax : ℚ := 1000
  digitalMin : ℚ := -32768
  digitalMax : ℚ := 32767
  samplingRate : ℚ := 250
  data : List FP := []
deriving DecidableEq

/-- `m_startDateTime` of `EEGData`: either `QDateTime::currentDateTime()`
(identified by an abstract clock tick) or a date/time parsed from an EDF
header. -/
inductive Timestamp where
  | currentTime (tick : Nat)
  | fileTime (dd mm yy hh mi ss : Nat)
deriving DecidableEq

/-- The `EEGData` recording state: ordered channel list plus metadata
(EEGData.h private members; `m_fileName` is set only by the UI layer and is
omitted). -/
structure EEGData where
  channels : List EEGChannel := []
  patientInfo : String := ""
  recordingInfo : String := ""
  startDateTime : Timestamp
deriving DecidableEq

/-- `EEGData::clear()`: drops all channels, empties the metadata and resets
the timestamp to the current time (`now` is the abstract clock tick at
which the call happens). -/
def EEGData.clear (now : Nat) (_d : EEGData) : EEGData :=
  { channels := [], patientInfo := "", recordingInfo := "",
    startDateTime := .currentTime now }

/-- `EEGData::channelCount()`. -/
def EEGData.channelCount (d : EEGData) : Nat := d.channels.length

/-- `EEGData::isEmpty()`. -/
def EEGData.isEmptyRec (d : EEGData) : Bool := d.channels.isEmpty

/-! ## Latin-1 byte handling (QString over EDF header bytes) -/

/-- A binary file: one `Nat` per byte, in file order. -/
abbrev Bytes := List Nat

/-- A byte that `QChar::isSpace` accepts within Latin-1 (ASCII whitespace
plus NEL `0x85` and NBSP `0xA0`). -/
def isSpaceByte (b : Nat) : Bool :=
  b = 32 || b = 9 || b = 10 || b = 11 || b = 12 || b = 13 || b = 133 || b = 160

/-- `QString::trimmed` on a Latin-1 byte field. -/
def trimBytes (bs : Bytes) : Bytes :=
  ((bs.dropWhile isSpaceByte).reverse.dropWhile isSpaceByte).reverse

/-- `QString::fromLatin1(ptr, n)`: each byte becomes the Unicode code point
of the same value. -/
def latin1 (bs : Bytes) : String :=
  String.mk (bs.map Char.ofNat)

/-- The byte value of an ASCII decimal digit, if it is one. -/
def digitVal (b : Nat) : Option Nat :=
  if 48 ≤ b ∧ b ≤ 57 then some (b - 48) else none

/-- Parses a non-empty all-digit byte run to its value (`none` otherwise). -/
def parseDigits (bs : Bytes) : Option Nat :=
  match bs with
  | [] => none
  | _ :: _ =>
    bs.foldl (fun acc b =>
      match acc, digitVal b with
      | some a, some d => some (a * 10 + d)
      | _, _ => none) (some 0)

/-- Digit-run parser that also accepts the empty run, returning the value
and the number of digits (`none` on any non-digit byte). -/
def parseDigitsOpt (bs : Bytes) : Option (Nat × Nat) :=
  bs.foldl (fun acc b =>
    match acc, digitVal b with
    | some (a, n), some d => some (a * 10 + d, n + 1)
    | _, _ => none) (some (0, 0))

/-- Splits a byte list at the first occurrence of `sep`: the part before it
and, when present, the part after it. -/
def splitFirst (sep : Nat) : Bytes → Bytes × Option Bytes
  | [] => ([], none)
  | b :: rest =>
    if b = sep then ([], some rest)
    else
      let r := splitFirst sep rest
      (b :: r.1, r.2)

/-- Optional ASCII sign: returns (negative?, remaining bytes). -/
def parseSign : Bytes → Bool × Bytes
  | 43 :: rest => (false, rest)
  | 45 :: rest => (true, rest)
  | bs => (false, bs)

/-- `QString::trimmed().toInt()` (base 10, C locale) on a Latin-1 field:
optional sign then one or more digits, nothing else.  (The `int` overflow
failure of Qt is not modelled; EDF fields are at most 8 bytes wide.) -/
def parseIntBytes (bs : Bytes) : Option ℤ :=
  let s := parseSign (trimBytes bs)
  match parseDigits s.2 with
  | some v => some (if s.1 then -(v : ℤ) else v)
  | none => none

/-- `QString::trimmed().toDouble()` (C locale) on a Latin-1 field, for the
fixed/scientific numeric forms an EDF header field can carry:
`[+-] digits [. digits] [ (e|E) [+-] digits ]` with at least one mantissa
digit.  The result is the exact rational value of the text. -/
def parseRatBytes (bs : Bytes) : Option ℚ :=
  let s := parseSign (trimBytes bs)
  let em := splitFirst 101 s.2
  let em :=
    match em.2 with
    | some _ => em
    | none => splitFirst 69 s.2
  let mant := splitFirst 46 em.1
  let fracPart := mant.2.getD []
  match parseDigitsOpt mant.1, parseDigitsOpt fracPart with
  | some (iv, ic), some (fv, fc) =>
    if ic + fc = 0 then none
    else
      let mag : ℚ := (iv : ℚ) + (fv : ℚ) / ((10 : ℚ) ^ fc)
      let mag : ℚ := if s.1 then -mag else mag
      match em.2 with
      | none => some mag
      | some ebs =>
        let es := parseSign ebs
        match parseDigits es.2 with
        | some ev => some (mag * (10 : ℚ) ^ (if es.1 then -(ev : ℤ) else ev))
        | none => none
  | _, _ => none

/-- Bytes of a C `char[]` buffer as `QString(const char*)` reads them:
everything up to the first NUL byte. -/
def takeToNul (bs : Bytes) : Bytes :=
  bs.takeWhile (fun b => b ≠ 0)

/-! ## EDF decode (`loadEDF`, EEGFileHandler.cpp) -/

/-- `stream.readRawData(buf, n)` with a failure check: splits off the `n`
bytes at the file cursor, or `none` when fewer than `n` bytes remain (the
source then returns `false` at once). -/
def takeField : Nat → Bytes → Option (Bytes × Bytes)
  | 0, rest => some ([], rest)
  | _ + 1, [] => none
  | n + 1, b :: rest =>
    match takeField n rest with
    | some (f, r) => some (b :: f, r)
    | none => none

/-- `stream.skipRawData(n)` (return value ignored by the source): skips at
most `n` bytes, clamped at end of file, returning the rest of the file and
the number of bytes actually skipped. -/
def skipField : Nat → Bytes → Bytes × Nat
  | 0, rest => (rest, 0)
  | _ + 1, [] => ([], 0)
  | n + 1, _ :: rest =>
    let r := skipField n rest
    (r.1, r.2 + 1)

/-- The label-reading loop: `n` signal labels of 16 Latin-1 bytes each,
each trimmed; a short read fails the whole load. -/
def readLabels (rest : Bytes) : Nat → Option (List String × Bytes)
  | 0 => some ([], rest)
  | n + 1 => do
    let (c, r1) ← takeField 16 rest
    let (more, r2) ← readLabels r1 n
    some (latin1 (trimBytes c) :: more, r2)

/-- The physical/digital min/max loop: for each signal four 8-byte fields
read in source order (physMin, physMax, digMin, digMax); a short read fails
the load, an unparsable field falls back to the source's per-field default
(−500, 500, −32768, 32767). -/
def readCalibs (rest : Bytes) :
    Nat → Option ((List ℚ × List ℚ × List ℚ × List ℚ) × Bytes)
  | 0 => some (([], [], [], []), rest)
  | n + 1 => do
    let (c1, r1) ← takeField 8 rest
    let (c2, r2) ← takeField 8 r1
    let (c3, r3) ← takeField 8 r2
    let (c4, r4) ← takeField 8 r3
    let pm := (parseRatBytes c1).getD (-500)
    let pM := (parseRatBytes c2).getD 500
    let dm := (parseRatBytes c3).getD (-32768)
    let dM := (parseRatBytes c4).getD 32767
    let (more, r5) ← readCalibs r4 n
    some ((pm :: more.1, pM :: more.2.1, dm :: more.2.2.1,
           dM :: more.2.2.2), r5)

/-- The samples-per-record loop: one 8-byte field per signal; a short read
fails the load; an unparsable field defaults to 1.  The source builds
`QString(samplesStr)` from the NUL-terminated buffer, so the text stops at
the first NUL byte. -/
def readSprs (rest : Bytes) : Nat → Option (List ℤ × Bytes)
  | 0 => some ([], rest)
  | n + 1 => do
    let (c, r1) ← takeField 8 rest
    let v := (parseIntBytes (takeToNul c)).getD 1
    let (more, r2) ← readSprs r1 n
    some (v :: more, r2)

/-- Everything `loadEDF` has parsed by the time it reaches `data.clear()`:
any failure before this point leaves the target recording untouched by
`loadEDF` itself.  `headerEnd` is `file.pos()` at the start of the data
records and `dataArea` is the rest of the file from that position, so
`dataArea.length` is the `fileSize − headerEndPos` of the source. -/
structure EDFHeader where
  numSignals : Nat
  labels : List String
  physMin : List ℚ
  physMax : List ℚ
  digMin : List ℚ
  digMax : List ℚ
  sprs : List ℤ
  recordDuration : ℚ
  headerEnd : Nat
  dataArea : Bytes
  patient : String
  recording : String
  startDate : Bytes
  startTime : Bytes
deriving DecidableEq

/-- The header phase of `loadEDF`: the 256-byte fixed header (fail if
short), the signal count (fail if unparsable or non-positive), the
per-signal label/calibration/samples-per-record fields (fail on short
read), the skipped transducer/dimension/prefiltering/reserved blocks, and
the record duration whose read result is ignored (a short or unparsable or
non-positive value falls back to 1.0; the unread bytes of its
zero-initialized `char[9]` buffer stay NUL). -/
def parseEDFHeader (bytes : Bytes) : Option EDFHeader := do
  let (hdr, r0) ← takeField 256 bytes
  let ns ← parseIntBytes ((hdr.drop 252).take 4)
  if ns ≤ 0 then none
  else do
    let n := ns.toNat
    let (labels, r1) ← readLabels r0 n
    let s2 := skipField (80 * n) r1
    let s3 := skipField (8 * n) s2.1
    let (cals, r4) ← readCalibs s3.1 n
    let s5 := skipField (80 * n) r4
    let s6 := skipField (32 * n) s5.1
    let (sprs, r7) ← readSprs s6.1 n
    let d8 := skipField 8 r7
    let durBuf := r7.take d8.2 ++ List.replicate (8 - d8.2) 0
    let dur :=
      match parseRatBytes durBuf with
      | some d => if d ≤ 0 then 1 else d
      | none => 1
    some { numSignals := n, labels := labels,
           physMin := cals.1, physMax := cals.2.1,
           digMin := cals.2.2.1, digMax := cals.2.2.2,
           sprs := sprs, recordDuration := dur,
           headerEnd := 256 + 16 * n + s2.2 + s3.2 + 32 * n + s5.2 + s6.2 +
             8 * n + d8.2,
           dataArea := d8.1,
           patient := latin1 (trimBytes ((hdr.drop 8).take 80)),
           recording := latin1 (trimBytes ((hdr.drop 88).take 80)),
           startDate := (hdr.drop 168).take 8,
           startTime := (hdr.drop 176).take 8 }

/-- `bytesPerRecord = 2 · Σ samplesPerRecord[i]` (C++ `int`). -/
def edfBytesPerRecord (h : EDFHeader) : ℤ :=
  2 * h.sprs.foldl (· + ·) 0

/-- `numRecords = dataSize / bytesPerRecord` before the cap, with
`dataSize = fileSize − headerEndPos`: C++ `int` division truncating
toward zero (`Int.tdiv`; a zero `bytesPerRecord`, which divides by zero in
C++, yields 0 here). -/
def edfAvailRecords (h : EDFHeader) : ℤ :=
  Int.tdiv (h.dataArea.length : ℤ) (edfBytesPerRecord h)

/-- `numRecords = qMin(numRecords, 10000)`; a non-positive count runs no
record-loop iterations, so it is `toNat`-clamped to 0. -/
def edfNumRecords (h : EDFHeader) : Nat :=
  (min (edfAvailRecords h) 10000).toNat

/-- One little-endian signed 16-bit sample (`file.read` of two bytes; a
short read fails the load; the host is little-endian so the byte-swap
branch does nothing). -/
def readSample16 : Bytes → Option (ℤ × Bytes)
  | lo :: hi :: rest =>
    let u := lo + 256 * hi
    some (if 32768 ≤ u then (u : ℤ) - 65536 else (u : ℤ), rest)
  | _ => none

/-- The inner sample loop: `k` consecutive 16-bit samples. -/
def readSamples (rest : Bytes) : Nat → Option (List ℤ × Bytes)
  | 0 => some ([], rest)
  | k + 1 => do
    let (v, r1) ← readSample16 rest
    let (more, r2) ← readSamples r1 k
    some (v :: more, r2)

/-- One data record: for each signal in order, its `samplesPerRecord`
samples (a negative count runs no loop iterations). -/
def readRecordChunks (rest : Bytes) :
    List ℤ → Option (List (List ℤ) × Bytes)
  | [] => some ([], rest)
  | spr :: sprs => do
    let (chunk, r1) ← readSamples rest spr.toNat
    let (chunks, r2) ← readRecordChunks r1 sprs
    some (chunk :: chunks, r2)

/-- The record loop: `n` records, each contributing one chunk per signal to
that signal's flat buffer. -/
def readRecords (rest : Bytes) (sprs : List ℤ) :
    Nat → Option (List (List ℤ) × Bytes)
  | 0 => some (sprs.map (fun _ => []), rest)
  | r + 1 => do
    let (chunks, r1) ← readRecordChunks rest sprs
    let (more, r2) ← readRecords r1 sprs r
    some (List.zipWith (· ++ ·) chunks more, r2)

/-- Minimum of a raw sample buffer (`std::min_element`; only used on
buffers of more than 10 samples). -/
def rawMin : List ℤ → ℤ
  | [] => 0
  | x :: xs => xs.foldl min x

/-- Maximum of a raw sample buffer (`std::max_element`). -/
def rawMax : List ℤ → ℤ
  | [] => 0
  | x :: xs => xs.foldl max x

/-- Sum of a raw sample buffer (the source accumulates into a `double`;
the accumulation is exact here). -/
def rawSum (l : List ℤ) : ℤ :=
  l.foldl (· + ·) 0

/-- The "DYNAMIC SCALING" block of `loadEDF`: resolves the `(scale, offset)`
pair for one signal.  Tier 1 uses the EDF calibration when both ranges are
non-degenerate; tier 2 derives a scaling from the raw-data statistics when
more than 10 samples exist; tier 3 is the identity. -/
def resolveScale (pm pM dm dM : ℚ) (raw : List ℤ) : ℚ × ℚ :=
  if 1/10 < |dM - dm| ∧ 1/10 < |pM - pm| then
    let scale := (pM - pm) / (dM - dm)
    (scale, pm - dm * scale)
  else if 10 < raw.length then
    let range : ℚ := ((rawMax raw : ℤ) : ℚ) - ((rawMin raw : ℤ) : ℚ)
    if 1/10 < range then
      let mean : ℚ := (rawSum raw : ℚ) / (raw.length : ℚ)
      if range < 100 then (1, 0)
      else if 30000 < range then
        let scale : ℚ := 200 / 65536
        (scale, -(mean * scale))
      else
        let scale : ℚ := 100 / range
        (scale, -(mean * scale))
    else (1, 0)
  else (1, 0)

/-- Case-insensitive substring test (`QString::contains` with
`Qt::CaseInsensitive`), on the character lists of the strings. -/
def listContainsSub (needle : List Char) : List Char → Bool
  | [] => needle.isEmpty
  | c :: rest => needle.isPrefixOf (c :: rest) || listContainsSub needle rest

/-- Case-insensitive `QString::contains` (ASCII case folding; labels come
from Latin-1 EDF header bytes). -/
def strContainsCI (hay needle : String) : Bool :=
  listContainsSub (needle.data.map Char.toLower) (hay.data.map Char.toLower)

/-- The annotation-channel test of `loadEDF`: the label contains
"EDF Annotations" or "Annotation", case-insensitively. -/
def isAnnotLabel (s : String) : Bool :=
  strContainsCI s "EDF Annotations" || strContainsCI s "Annotation"

/-- Builds one `EEGChannel` from signal `sig` of a decoded EDF: empty
labels fall back to `CH<n>`, the unit is fixed, the sampling rate is
`samplesPerRecord / recordDuration`, and each raw sample is converted by
`physicalValue = raw · scale + offset`.  The calibration fields of the
channel are never assigned by `loadEDF` and keep their struct defaults. -/
def mkEDFChannel (h : EDFHeader) (raw : List (List ℤ)) (sig : Nat) : EEGChannel :=
  let lbl := h.labels.getD sig ""
  let rawSig := raw.getD sig []
  let so := resolveScale (h.physMin.getD sig 0) (h.physMax.getD sig 0)
    (h.digMin.getD sig 0) (h.digMax.getD sig 0) rawSig
  { label := if lbl = "" then "CH" ++ toString (sig + 1) else lbl,
    unit := "µV",
    samplingRate := ((h.sprs.getD sig 0 : ℤ) : ℚ) / h.recordDuration,
    data := rawSig.map (fun (r : ℤ) => FP.fin ((r : ℚ) * so.1 + so.2)) }

/-- The channel-construction loop of `loadEDF`: the first
`min(numSignals, 32)` signals in order, skipping annotation channels. -/
def buildChannels (h : EDFHeader) (raw : List (List ℤ)) : List EEGChannel :=
  (List.range (min h.numSignals 32)).filterMap (fun sig =>
    if isAnnotLabel (h.labels.getD sig "") then none
    else some (mkEDFChannel h raw sig))

/-- Two ASCII digit bytes as a number. -/
def parse2Digits (a b : Nat) : Option Nat := do
  let x ← digitVal a
  let y ← digitVal b
  some (x * 10 + y)

/-- Day count of a month in the proleptic Gregorian calendar (for
`QDate` validity). -/
def daysInMonth (m year : Nat) : Nat :=
  if m = 2 then
    if year % 4 = 0 ∧ (year % 100 ≠ 0 ∨ year % 400 = 0) then 29 else 28
  else if m = 4 ∨ m = 6 ∨ m = 9 ∨ m = 11 then 30
  else 31

/-- `QDateTime::fromString(startDate.trimmed() + " " + startTime.trimmed(),
"dd.MM.yy hh.mm.ss")`: both trimmed fields must match the fixed two-digit
dotted layout and denote a valid calendar date (two-digit years are taken
as 1900–1999) and time of day; otherwise the result is invalid and the
recording keeps its previous timestamp. -/
def parseEDFDateTime (dateB timeB : Bytes) : Option Timestamp :=
  match trimBytes dateB, trimBytes timeB with
  | [d1, d2, 46, m1, m2, 46, y1, y2], [h1, h2, 46, n1, n2, 46, s1, s2] => do
    let dd ← parse2Digits d1 d2
    let mm ← parse2Digits m1 m2
    let yy ← parse2Digits y1 y2
    let hh ← parse2Digits h1 h2
    let mi ← parse2Digits n1 n2
    let ss ← parse2Digits s1 s2
    if 1 ≤ mm ∧ mm ≤ 12 ∧ 1 ≤ dd ∧ dd ≤ daysInMonth mm (1900 + yy) ∧
        hh ≤ 23 ∧ mi ≤ 59 ∧ ss ≤ 59 then
      some (.fileTime dd mm yy hh mi ss)
    else none
  | _, _ => none

/-- `loadEDF` (EEGFileHandler.cpp, real parser): header phase, then
`data.clear()`, then the record-count computation with the 10000-record
cap, the record-reading loop (any short sample read fails the load), the
channel construction, and the metadata/timestamp assignment.  Failures
before `data.clear()` return `false` with the target untouched by this
function; a failure in the record loop returns `false` with the target
cleared. -/
def loadEDF (now : Nat) (bytes : Bytes) (d : EEGData) : Bool × EEGData :=
  match parseEDFHeader bytes with
  | none => (false, d)
  | some h =>
    let d2 := d.clear now
    match readRecords h.dataArea h.sprs (edfNumRecords h) with
    | none => (false, d2)
    | some raw =>
      (true,
        { channels := buildChannels h raw.1,
          patientInfo := h.patient,
          recordingInfo := h.recording,
          startDateTime :=
            match parseEDFDateTime h.startDate h.startTime with
            | some t => t
            | none => d2.startDateTime })

/-- `EEGData::loadFromFile` on a path with the `.edf` extension: the
recording is cleared first, then `EEGFileHandler::loadFile` dispatches to
`loadEDF`. -/
def loadFromFileEDF (now : Nat) (bytes : Bytes) (d : EEGData) : Bool × EEGData :=
  loadEDF now bytes (d.clear now)

/-! ## A concrete synthetic EDF file for the calibration scenario -/

/-- An ASCII text field padded with spaces to a fixed width, as EDF headers
store their fields. -/
def padField (s : String) (w : Nat) : Bytes :=
  (s.data.map Char.toNat).take w ++ List.replicate (w - s.length) 32

/-- Little-endian two's-complement 16-bit encoding of a sample value. -/
def int16le (v : ℤ) : Bytes :=
  let u := (v % 65536).toNat
  [u % 256, u / 256]

/-- The per-signal header block of the calibration scenario: physMin −100,
physMax 100, digMin −32768, digMax 32767 (read in that order by the
source). -/
def scenarioCalibField : Bytes :=
  padField "-100" 8 ++ padField "100" 8 ++ padField "-32768" 8 ++ padField "32767" 8

/-- A synthetic EDF file with 2 signals labeled C3/C4, calibration
digMin −32768, digMax 32767, physMin −100, physMax 100, 3 samples per
record, record duration 1 s, and one data record carrying the raw samples
[0, 16384, −16384] on both signals. -/
def edfScenarioBytes : Bytes :=
  padField "0" 8 ++ padField "Pat X" 80 ++ padField "Rec Y" 80 ++
  padField "01.01.24" 8 ++ padField "10.20.30" 8 ++ List.replicate 68 32 ++
  padField "2" 4 ++
  padField "C3" 16 ++ padField "C4" 16 ++
  List.replicate 160 32 ++ List.replicate 16 32 ++
  scenarioCalibField ++ scenarioCalibField ++
  List.replicate 160 32 ++ List.replicate 64 32 ++
  padField "3" 8 ++ padField "3" 8 ++ padField "1" 8 ++
  int16le 0 ++ int16le 16384 ++ int16le (-16384) ++
  int16le 0 ++ int16le 16384 ++ int16le (-16384)

/-- An empty starting recording at clock tick 0. -/
def emptyRecording : EEGData :=
  { channels := [], patientInfo := "", recordingInfo := "",
    startDateTime := .currentTime 0 }

/-! ## Claims C1 and C2: EDF load failure behaviour, linear calibration -/

/-- A non-empty recording that existed before a failing load is attempted. -/
def preloadRecording : EEGData :=
  { channels := [{ label := "Cz", unit := "uV",
                   data := [.fin 1, .fin 2, .fin 3] }],
    patientInfo := "old patient", recordingInfo := "old recording",
    startDateTime := .currentTime 5 }

unseal Rat.add Rat.mul Rat.sub Rat.inv in
/-- C1 (counterexample): loading a truncated EDF (an empty file) into a
recording that already holds one channel does fail, but the recording is
not left as it was before the load: its channel is gone, because
`EEGData::loadFromFile` clears the recording before the codec runs. -/
theorem c1_load_failure_not_untouched :
    (loadFromFileEDF 7 [] preloadRecording).1 = false ∧
    (loadFromFileEDF 7 [] preloadRecording).2.channels ≠ preloadRecording.channels ∧
    (loadFromFileEDF 7 [] preloadRecording).2.patientInfo ≠ preloadRecording.patientInfo := by
  decide

/-- C1 (amended): whenever the EDF load fails — at any step — the load
returns failure and commits no partial channel set: the target recording
ends in the cleared state (no channels, empty metadata, timestamp reset to
the load time), whatever it held before.  It is cleared rather than
untouched. -/
theorem c1_load_failure_leaves_cleared (now : Nat) (bytes : Bytes) (d : EEGData)
    (hfail : (loadFromFileEDF now bytes d).1 = false) :
    (loadFromFileEDF now bytes d).2.channels = [] ∧
    (loadFromFileEDF now bytes d).2.patientInfo = "" ∧
    (loadFromFileEDF now bytes d).2.recordingInfo = "" ∧
    (loadFromFileEDF now bytes d).2.startDateTime = .currentTime now := by
  unfold loadFromFileEDF loadEDF at hfail ⊢
  cases hp : parseEDFHeader bytes with
  | none => simp [hp, EEGData.clear]
  | some h =>
    cases hr : readRecords h.dataArea h.sprs (edfNumRecords h) with
    | none => simp [hp, hr, EEGData.clear]
    | some raw => simp [hp, hr] at hfail

unseal Rat.add Rat.mul Rat.sub Rat.inv in
/-- C1 (witness): the amended theorem applied to the failing load of the
counterexample. -/
theorem c1_load_failure_leaves_cleared_witness :
    (loadFromFileEDF 7 [] preloadRecording).1 = false ∧
    ((loadFromFileEDF 7 [] preloadRecording).2.channels = [] ∧
     (loadFromFileEDF 7 [] preloadRecording).2.patientInfo = "" ∧
     (loadFromFileEDF 7 [] preloadRecording).2.recordingInfo = "" ∧
     (loadFromFileEDF 7 [] preloadRecording).2.startDateTime = .currentTime 7) :=
  ⟨by decide, c1_load_failure_leaves_cleared 7 [] preloadRecording (by decide)⟩

set_option maxRecDepth 100000 in
unseal Rat.add Rat.mul Rat.sub Rat.inv in
/-- C2: with digitalMin −32768, digitalMax 32767, physicalMin −100,
physicalMax 100 (both ranges non-degenerate) the loader resolves the linear
calibration scale = (physMax−physMin)/(digMax−digMin) = 200/65535 and
offset = physMin − digMin·scale = 100/65535 for every raw buffer, and
decoding the synthetic two-signal EDF with raw samples [0, 16384, −16384]
yields physical values within 1/100 of [0, 50, −50] on both channels. -/
theorem c2_edf_linear_calibration :
    (∀ raw : List ℤ,
      resolveScale (-100) 100 (-32768) 32767 raw = (200/65535, 100/65535)) ∧
    (loadFromFileEDF 0 edfScenarioBytes emptyRecording).1 = true ∧
    (loadFromFileEDF 0 edfScenarioBytes emptyRecording).2.channels.map
        EEGChannel.data =
      [[.fin (100/65535), .fin (3276900/65535), .fin (-3276700/65535)],
       [.fin (100/65535), .fin (3276900/65535), .fin (-3276700/65535)]] ∧
    |(100 : ℚ)/65535 - 0| < 1/100 ∧ |(3276900 : ℚ)/65535 - 50| < 1/100 ∧
    |(-3276700 : ℚ)/65535 - (-50)| < 1/100 := by
  refine ⟨fun raw => ?_, by decide, by decide, by decide, by decide, by decide⟩
  simp only [resolveScale]
  norm_num

/-! ## Claim C3: the 10000-record cap -/

/-- Bytes consumed by one data record in the reading loop: 2 bytes per
sample actually read (`toNat` because a negative samples-per-record count
runs no iterations). -/
def recordBytes (sprs : List ℤ) : Nat :=
  (sprs.map (fun s => 2 * s.toNat)).sum

/-- If `o.isSome`, then `o` is `some` of its `getD`. -/
theorem optionGetDSome {α : Type} (o : Option α) (d : α) (ho : o.isSome = true) :
    o = some (o.getD d) := by
  cases o with
  | none => simp at ho
  | some a => rfl

/-- `readSamples` succeeds and returns `k` samples whenever `2·k` bytes are
available, consuming exactly `2·k` bytes. -/
theorem readSamples_ok (k : Nat) : ∀ rest : Bytes, 2 * k ≤ rest.length →
    ∃ chunk rest', readSamples rest k = some (chunk, rest') ∧
      chunk.length = k ∧ rest'.length = rest.length - 2 * k := by
  induction k with
  | zero => intro rest _; exact ⟨[], rest, rfl, rfl, by simp⟩
  | succ k ih =>
    intro rest hlen
    match rest with
    | [] => exact absurd hlen (by simp only [List.length_nil]; omega)
    | [a] =>
      exact absurd hlen (by simp only [List.length_cons, List.length_nil]; omega)
    | a :: b :: t =>
      have ht : 2 * k ≤ t.length := by
        simp only [List.length_cons] at hlen; omega
      obtain ⟨chunk, rest', hrd, hck, hrl⟩ := ih t ht
      refine ⟨(if 32768 ≤ a + 256 * b then ((a + 256 * b : ℕ) : ℤ) - 65536
        else ((a + 256 * b : ℕ) : ℤ)) :: chunk, rest', ?_, ?_, ?_⟩
      · simp [readSamples, readSample16, hrd]
      · simp [hck]
      · simp only [List.length_cons] at hrl ⊢; omega

/-- `readRecordChunks` succeeds whenever one record's bytes are available,
returning one chunk per signal of that signal's samples-per-record size. -/
theorem readRecordChunks_ok (sprs : List ℤ) : ∀ rest : Bytes,
    recordBytes sprs ≤ rest.length →
    ∃ chunks rest', readRecordChunks rest sprs = some (chunks, rest') ∧
      chunks.length = sprs.length ∧
      (∀ i, i < sprs.length →
        (chunks.getD i []).length = (sprs.getD i 0).toNat) ∧
      rest'.length = rest.length - recordBytes sprs := by
  induction sprs with
  | nil =>
    intro rest _
    exact ⟨[], rest, rfl, rfl, by intro i hi; simp at hi, by simp [recordBytes]⟩
  | cons s sprs ih =>
    intro rest hlen
    have hrb : recordBytes (s :: sprs) = 2 * s.toNat + recordBytes sprs := by
      simp [recordBytes]
    have hs : 2 * s.toNat ≤ rest.length := by omega
    obtain ⟨chunk, r1, hrd, hck, hr1⟩ := readSamples_ok s.toNat rest hs
    have ht : recordBytes sprs ≤ r1.length := by omega
    obtain ⟨chunks, r2, hrc, hcl, hcc, hr2⟩ := ih r1 ht
    refine ⟨chunk :: chunks, r2, ?_, by simp [hcl], ?_, by omega⟩
    · simp [readRecordChunks, hrd, hrc]
    · intro i hi
      match i with
      | 0 => simpa using hck
      | j + 1 =>
        rw [List.getD_cons_succ, List.getD_cons_succ]
        exact hcc j (by simpa using Nat.lt_of_succ_lt_succ (by simpa using hi))

/-- Element access through `zipWith (· ++ ·)` on index-aligned lists. -/
theorem getD_zipWith_append : ∀ (xs ys : List (List ℤ)) (i : Nat),
    i < xs.length → i < ys.length →
    (List.zipWith (· ++ ·) xs ys).getD i [] = xs.getD i [] ++ ys.getD i [] := by
  intro xs
  induction xs with
  | nil => intro ys i hi _; simp at hi
  | cons x xs ih =>
    intro ys i hx hy
    match ys, i with
    | [], _ => simp at hy
    | y :: ys, 0 => simp
    | y :: ys, j + 1 =>
      simp only [List.zipWith_cons_cons, List.getD_cons_succ]
      exact ih ys j (by simpa using hx) (by simpa using hy)

/-- `readRecords` succeeds whenever `n` records' bytes are available, and
every signal's flat buffer then holds `samplesPerRecord · n` samples. -/
theorem readRecords_ok (sprs : List ℤ) (n : Nat) : ∀ rest : Bytes,
    recordBytes sprs * n ≤ rest.length →
    ∃ out rest', readRecords rest sprs n = some (out, rest') ∧
      out.length = sprs.length ∧
      (∀ i, i < sprs.length →
        (out.getD i []).length = (sprs.getD i 0).toNat * n) ∧
      rest'.length = rest.length - recordBytes sprs * n := by
  induction n with
  | zero =>
    intro rest _
    refine ⟨sprs.map (fun _ => []), rest, rfl, by simp, ?_, by simp⟩
    intro i hi
    rw [List.getD_eq_getElem _ _ (by simpa using hi)]
    simp
  | succ n ih =>
    intro rest hlen
    have hexp : recordBytes sprs * (n + 1) = recordBytes sprs * n + recordBytes sprs := by
      ring
    have h1 : recordBytes sprs ≤ rest.length := by omega
    obtain ⟨chunks, r1, hrc, hcl, hcc, hr1⟩ := readRecordChunks_ok sprs rest h1
    have h2 : recordBytes sprs * n ≤ r1.length := by omega
    obtain ⟨out, r2, hrr, hol, hoc, hr2⟩ := ih r1 h2
    refine ⟨List.zipWith (· ++ ·) chunks out, r2, ?_, ?_, ?_, by omega⟩
    · simp [readRecords, hrc, hrr]
    · simp [List.length_zipWith, hcl, hol]
    · intro i hi
      rw [getD_zipWith_append chunks out i (by rw [hcl]; exact hi)
        (by rw [hol]; exact hi)]
      rw [List.length_append, hcc i hi, hoc i hi]
      ring

/-- `readSprs` returns one samples-per-record entry per signal. -/
theorem readSprs_length : ∀ (n : Nat) (rest : Bytes) (l : List ℤ) (r : Bytes),
    readSprs rest n = some (l, r) → l.length = n := by
  intro n
  induction n with
  | zero =>
    intro rest l r hrd
    simp only [readSprs, Option.some.injEq, Prod.mk.injEq] at hrd
    rw [← hrd.1]
    rfl
  | succ n ih =>
    intro rest l r hrd
    unfold readSprs at hrd
    simp only [bind, Option.bind] at hrd
    split at hrd
    · simp at hrd
    · rename_i p heq
      dsimp only at hrd
      split at hrd
      · simp at hrd
      · rename_i q heq2
        simp only [Option.some.injEq, Prod.mk.injEq] at hrd
        rw [← hrd.1]
        simp [ih p.2 q.1 q.2 (by rw [heq2])]

/-- When every samples-per-record is nonnegative, the record loop consumes
exactly `bytesPerRecord` bytes per record. -/
theorem recordBytes_eq_bytesPerRecord (sprs : List ℤ)
    (hnn : ∀ s ∈ sprs, 0 ≤ s) :
    (recordBytes sprs : ℤ) = 2 * sprs.foldl (· + ·) 0 := by
  have hshift : ∀ (l : List ℤ) (a : ℤ), l.foldl (· + ·) a = a + l.foldl (· + ·) 0 := by
    intro l
    induction l with
    | nil => intro a; simp
    | cons x t ih =>
      intro a
      simp only [List.foldl_cons]
      rw [ih (a + x), ih (0 + x)]
      ring
  induction sprs with
  | nil => simp [recordBytes]
  | cons s t ih =>
    have hs : (0:ℤ) ≤ s := hnn s (by simp)
    have ht := ih (fun x hx => hnn x (by simp [hx]))
    simp only [recordBytes, List.map_cons, List.sum_cons, List.foldl_cons] at ht ⊢
    rw [hshift t (0 + s)]
    push_cast [Int.toNat_of_nonneg hs]
    push_cast at ht
    linarith

/-- A successfully parsed EDF header carries one samples-per-record entry
per signal. -/
theorem parseEDFHeader_sprs_length (bytes : Bytes) (h : EDFHeader)
    (hp : parseEDFHeader bytes = some h) : h.sprs.length = h.numSignals := by
  unfold parseEDFHeader at hp
  simp only [bind, Option.bind] at hp
  split at hp
  · simp at hp
  · rename_i p0 heq0
    dsimp only at hp
    split at hp
    · simp at hp
    · rename_i ns heq1
      dsimp only at hp
      split at hp
      · simp at hp
      · split at hp
        · simp at hp
        · rename_i p1 heq2
          dsimp only at hp
          split at hp
          · simp at hp
          · rename_i p2 heq3
            dsimp only at hp
            split at hp
            · simp at hp
            · rename_i p3 heq4
              dsimp only at hp
              simp only [Option.some.injEq] at hp
              subst hp
              simpa using readSprs_length _ _ _ _ (by rw [heq4])

/-- C3: for every EDF file whose computed available record count
`(fileSize − headerEndOffset) / bytesPerRecord` exceeds 10000 (its header
parses, with nonnegative samples-per-record counts as in any well-formed
EDF), the load succeeds and every loaded channel holds exactly
`samplesPerRecord[sig] · 10000` samples — 10000 records' worth, not more. -/
theorem c3_record_count_cap (now : Nat) (bytes : Bytes) (d : EEGData)
    (h : EDFHeader) (hp : parseEDFHeader bytes = some h)
    (hnn : ∀ s ∈ h.sprs, 0 ≤ s)
    (hbig : 10000 < edfAvailRecords h) :
    (loadFromFileEDF now bytes d).1 = true ∧
    ∀ c ∈ (loadFromFileEDF now bytes d).2.channels,
      ∃ sig, sig < min h.numSignals 32 ∧
        c.data.length = (h.sprs.getD sig 0).toNat * 10000 := by
  have hlen0 : (0 : ℤ) ≤ (h.dataArea.length : ℤ) := Int.ofNat_nonneg _
  have hbpr_pos : 0 < edfBytesPerRecord h := by
    rcases lt_trichotomy (edfBytesPerRecord h) 0 with hlt | heq | hgt
    · exfalso
      have hneg : (h.dataArea.length : ℤ).tdiv (edfBytesPerRecord h) =
          -((h.dataArea.length : ℤ).tdiv (-(edfBytesPerRecord h))) := by
        rw [← Int.tdiv_neg, neg_neg]
      have hge := Int.tdiv_nonneg hlen0 (by omega : (0:ℤ) ≤ -(edfBytesPerRecord h))
      unfold edfAvailRecords at hbig
      omega
    · exfalso
      unfold edfAvailRecords at hbig
      rw [heq, Int.tdiv_zero] at hbig
      omega
    · exact hgt
  have havail : edfAvailRecords h = (h.dataArea.length : ℤ) / edfBytesPerRecord h :=
    Int.tdiv_eq_ediv hlen0 (le_of_lt hbpr_pos)
  have hmul : 10001 * edfBytesPerRecord h ≤ (h.dataArea.length : ℤ) := by
    have h1 : (10001 : ℤ) ≤ (h.dataArea.length : ℤ) / edfBytesPerRecord h := by
      rw [havail] at hbig; omega
    exact (Int.le_ediv_iff_mul_le hbpr_pos).mp h1
  have hrbz : (recordBytes h.sprs : ℤ) = edfBytesPerRecord h := by
    rw [recordBytes_eq_bytesPerRecord h.sprs hnn]; rfl
  have hbytes : recordBytes h.sprs * 10000 ≤ h.dataArea.length := by
    have : (recordBytes h.sprs * 10000 : ℤ) ≤ (h.dataArea.length : ℤ) := by
      rw [hrbz]
      nlinarith
    exact_mod_cast this
  have hnum : edfNumRecords h = 10000 := by
    unfold edfNumRecords
    rw [min_eq_right (by omega : (10000:ℤ) ≤ edfAvailRecords h)]
    rfl
  obtain ⟨out, rest', hrr, hol, hoc, -⟩ := readRecords_ok h.sprs 10000 h.dataArea hbytes
  have hload : loadFromFileEDF now bytes d =
      (true,
        { channels := buildChannels h out,
          patientInfo := h.patient,
          recordingInfo := h.recording,
          startDateTime :=
            match parseEDFDateTime h.startDate h.startTime with
            | some t => t
            | none => ((d.clear now).clear now).startDateTime }) := by
    unfold loadFromFileEDF loadEDF
    rw [hp]
    dsimp only
    rw [hnum, hrr]
  have hsl := parseEDFHeader_sprs_length bytes h hp
  constructor
  · rw [hload]
  · intro c hc
    rw [hload] at hc
    simp only at hc
    unfold buildChannels at hc
    rw [List.mem_filterMap] at hc
    obtain ⟨sig, hsig, hcase⟩ := hc
    rw [List.mem_range] at hsig
    by_cases hann : isAnnotLabel (h.labels.getD sig "")
    · rw [if_pos hann] at hcase
      exact absurd hcase (by simp)
    · rw [if_neg hann] at hcase
      simp only [Option.some.injEq] at hcase
      refine ⟨sig, hsig, ?_⟩
      rw [← hcase]
      have hdl : (mkEDFChannel h out sig).data.length = (out.getD sig []).length := by
        unfold mkEDFChannel
        exact List.length_map _ _
      rw [hdl]
      exact hoc sig (by omega)

/-- A synthetic EDF file with one signal (label C3, one sample per record,
record duration 1 s) whose data area holds 20002 bytes: 10001 available
records, which exceeds the 10000-record cap. -/
def capFileBytes : Bytes :=
  padField "0" 8 ++ padField "P" 80 ++ padField "R" 80 ++
  padField "01.01.24" 8 ++ padField "10.20.30" 8 ++ List.replicate 68 32 ++
  padField "1" 4 ++
  padField "C3" 16 ++ List.replicate 80 32 ++ List.replicate 8 32 ++
  scenarioCalibField ++
  List.replicate 80 32 ++ List.replicate 32 32 ++
  padField "1" 8 ++ padField "1" 8 ++
  List.replicate 20002 0

/-- A default header value, used only to name the parse result of
`capFileBytes` below. -/
def emptyEDFHeader : EDFHeader :=
  { numSignals := 0, labels := [], physMin := [], physMax := [], digMin := [],
    digMax := [], sprs := [], recordDuration := 1, headerEnd := 0,
    dataArea := [], patient := "", recording := "", startDate := [],
    startTime := [] }

/-- The parsed header of `capFileBytes`. -/
def capHeader : EDFHeader := (parseEDFHeader capFileBytes).getD emptyEDFHeader

set_option maxRecDepth 400000 in
unseal Rat.add Rat.mul Rat.sub Rat.inv in
/-- C3 (witness): the cap theorem applied to the concrete over-long EDF
file `capFileBytes`. -/
theorem c3_record_count_cap_witness :
    parseEDFHeader capFileBytes = some capHeader ∧
    (∀ s ∈ capHeader.sprs, 0 ≤ s) ∧
    10000 < edfAvailRecords capHeader ∧
    ((loadFromFileEDF 0 capFileBytes emptyRecording).1 = true ∧
     ∀ c ∈ (loadFromFileEDF 0 capFileBytes emptyRecording).2.channels,
       ∃ sig, sig < min capHeader.numSignals 32 ∧
         c.data.length = (capHeader.sprs.getD sig 0).toNat * 10000) := by
  have hsome : (parseEDFHeader capFileBytes).isSome = true := by decide
  have hp : parseEDFHeader capFileBytes = some capHeader :=
    optionGetDSome _ emptyEDFHeader hsome
  have hnn : ∀ s ∈ capHeader.sprs, 0 ≤ s := by decide
  have hdA : capHeader.dataArea = List.replicate 20002 0 := by rfl
  have hsprs : capHeader.sprs = [1] := by decide
  have hbig : 10000 < edfAvailRecords capHeader := by
    rw [edfAvailRecords, hdA, List.length_replicate, edfBytesPerRecord, hsprs]
    decide
  exact ⟨hp, hnn, hbig,
    c3_record_count_cap 0 capFileBytes emptyRecording capHeader hp hnn hbig⟩

/-! ## SignalProcessor: time-window extraction (C8) and bandpass guard (C6) -/

/-- C++ `static_cast<int>` on a double: truncation toward zero. -/
def ratTrunc (q : ℚ) : ℤ :=
  if q < 0 then -⌊-q⌋ else ⌊q⌋

/-- `SignalProcessor::extractTimeWindow` (SignalProcessor.h): returns a
fresh copy (the C++ takes the input by const reference and appends into a
new vector) of the samples between `(int)(startTime·rate)` and
`(int)((startTime+duration)·rate)` clamped to `[0, size−1]`, inclusive;
empty when the input is empty, the rate non-positive, or the clamped range
inverted. -/
def extractTimeWindow (data : List FP) (samplingRate startTime duration : ℚ) :
    List FP :=
  if data = [] ∨ samplingRate ≤ 0 then []
  else
    let startSample : ℤ := ratTrunc (startTime * samplingRate)
    let endSample : ℤ := ratTrunc ((startTime + duration) * samplingRate)
    let s := max 0 startSample
    let e := min ((data.length : ℤ) - 1) endSample
    if s ≤ e then
      (List.range (e - s + 1).toNat).map (fun k => data.getD (s.toNat + k) (.fin 0))
    else []

/-- The claim's reading of `extractTimeWindow`, with the index range
computed by `floor`: the slice of `data` from `⌊startTime·rate⌋` to
`⌊(startTime+duration)·rate⌋` clamped to `[0, length−1]`, empty when the
clamped range is invalid or the input is empty or the rate non-positive. -/
def extractWindowFloorClaim (data : List FP) (samplingRate startTime duration : ℚ) :
    List FP :=
  if data = [] ∨ samplingRate ≤ 0 then []
  else
    let s := max 0 ⌊startTime * samplingRate⌋
    let e := min ((data.length : ℤ) - 1) ⌊(startTime + duration) * samplingRate⌋
    if e < s then [] else (data.drop s.toNat).take (e - s + 1).toNat

/-- The amended claim: the same slice description, but with both indices
computed by truncation toward zero (the C cast), which coincides with
`floor` whenever the products are nonnegative. -/
def extractWindowTruncSpec (data : List FP) (samplingRate startTime duration : ℚ) :
    List FP :=
  if data = [] ∨ samplingRate ≤ 0 then []
  else
    let s := max 0 (ratTrunc (startTime * samplingRate))
    let e := min ((data.length : ℤ) - 1) (ratTrunc ((startTime + duration) * samplingRate))
    if e < s then [] else (data.drop s.toNat).take (e - s + 1).toNat

/-- Index-built slices agree with drop/take slices inside bounds. -/
theorem range_map_getD_eq_drop_take (l : List FP) (s k : Nat)
    (h : s + k ≤ l.length) :
    (List.range k).map (fun i => l.getD (s + i) (.fin 0)) = (l.drop s).take k := by
  apply List.ext_getElem
  · simp
    omega
  · intro i h1 h2
    have hik : i < k := by simpa using h1
    have hsl : s + i < l.length := by omega
    rw [List.getElem_map, List.getElem_range, List.getElem_take, List.getElem_drop]
    exact List.getD_eq_getElem l (.fin 0) hsl

set_option maxRecDepth 100000 in
unseal Rat.add Rat.mul Rat.sub Rat.inv in
/-- C8 (counterexample): the source truncates the window indices toward
zero, not with `floor`.  Extracting from the 2-sample sequence [1, 2] at
rate 1 with startTime −2 and duration 3/2 returns one sample ([1]), while
the floor-based description of the claim returns the empty sequence. -/
theorem c8_floor_claim_false :
    extractTimeWindow [.fin 1, .fin 2] 1 (-2) (3/2) = [.fin 1] ∧
    extractWindowFloorClaim [.fin 1, .fin 2] 1 (-2) (3/2) = [] ∧
    ([FP.fin 1] : List FP) ≠ [] := by
  refine ⟨by decide, by decide, by decide⟩

/-- C8 (amended): `extractTimeWindow` returns a copy of the samples in the
index range `[trunc(startTime·rate), trunc((startTime+duration)·rate)]`
(truncation toward zero — equal to `floor` whenever the products are
nonnegative) clamped to `[0, length−1]`, and the empty sequence when the
clamped range is invalid (start > end) or the input is empty or the rate
non-positive; the input itself is not modified (the C++ takes a const
reference and fills a fresh vector). -/
theorem c8_extract_window_trunc (data : List FP) (rate start dur : ℚ) :
    extractTimeWindow data rate start dur = extractWindowTruncSpec data rate start dur := by
  unfold extractTimeWindow extractWindowTruncSpec
  by_cases h0 : data = [] ∨ rate ≤ 0
  · rw [if_pos h0, if_pos h0]
  · rw [if_neg h0, if_neg h0]
    dsimp only
    by_cases hse : (max 0 (ratTrunc (start * rate))) ≤
        (min ((data.length : ℤ) - 1) (ratTrunc ((start + dur) * rate)))
    · rw [if_pos hse, if_neg (by omega)]
      apply range_map_getD_eq_drop_take
      have hs0 : (0:ℤ) ≤ max 0 (ratTrunc (start * rate)) := le_max_left _ _
      have he : min ((data.length : ℤ) - 1) (ratTrunc ((start + dur) * rate)) ≤
          (data.length : ℤ) - 1 := min_le_left _ _
      omega
    · rw [if_neg hse, if_pos (by omega)]

/-- What `SignalProcessor::bandpassFilter` (Butterworth version) does on a
call: returns silently on empty data or non-positive rate, emits the
"Invalid bandpass frequencies" warning and returns on a bad cutoff
configuration, or designs and applies the zero-phase filter. -/
inductive FilterOutcome where
  | emptyOrBadRate
  | invalidParams
  | filtered
deriving DecidableEq

/-- `SignalProcessor::bandpassFilter` (SignalProcessor.h, Butterworth
version): the guard structure of the source, paired with the outcome.  The
Butterworth zero-phase stage itself (`gBandpassFilter.design` +
`applyZeroPhase`) computes with transcendental coefficients that have no
exact rational embedding, so it is abstracted as the parameter `butter`;
the claims about this function concern only the guard behaviour and hold
for every `butter`. -/
def bandpassFilter (butter : List FP → List FP) (data : List FP)
    (samplingRate lowCutHz highCutHz : ℚ) : FilterOutcome × List FP :=
  if data = [] ∨ samplingRate ≤ 0 then (.emptyOrBadRate, data)
  else if lowCutHz ≤ 0 ∨ highCutHz ≤ lowCutHz ∨ samplingRate / 2 ≤ highCutHz then
    (.invalidParams, data)
  else (.filtered, butter data)

unseal Rat.add Rat.mul Rat.sub Rat.inv in
/-- C6 (counterexample): with a non-positive sampling rate the Nyquist
precondition `highCut < rate/2` is violated, yet the function returns at
the silent empty-or-bad-rate guard without surfacing the invalid-parameter
warning (the claim promises a warning for every precondition violation). -/
theorem c6_warning_missing_for_bad_rate :
    bandpassFilter id [FP.fin 1] 0 1 2 = (.emptyOrBadRate, [FP.fin 1]) ∧
    FilterOutcome.emptyOrBadRate ≠ FilterOutcome.invalidParams ∧
    ((0 : ℚ) / 2 ≤ 2) := by
  refine ⟨by decide, by decide, by norm_num⟩

/-- C6 (amended): whenever the cutoff parameters violate the preconditions
(`lowCut > 0`, `highCut > lowCut`, `highCut < rate/2`), `bandpassFilter`
is a no-op — the sample sequence is returned completely unchanged and the
filter stage never runs — and it surfaces the invalid-parameter warning
exactly when the sequence is non-empty and the rate positive; with empty
input or a non-positive rate it returns silently instead. -/
theorem c6_bandpass_guard (butter : List FP → List FP) (data : List FP)
    (rate lowCut highCut : ℚ)
    (hviol : lowCut ≤ 0 ∨ highCut ≤ lowCut ∨ rate / 2 ≤ highCut) :
    (bandpassFilter butter data rate lowCut highCut).2 = data ∧
    (bandpassFilter butter data rate lowCut highCut).1 ≠ .filtered ∧
    (data ≠ [] ∧ 0 < rate →
      (bandpassFilter butter data rate lowCut highCut).1 = .invalidParams) := by
  unfold bandpassFilter
  by_cases h0 : data = [] ∨ rate ≤ 0
  · rw [if_pos h0]
    refine ⟨rfl, by simp, ?_⟩
    intro hne
    rcases h0 with h0 | h0
    · exact absurd h0 hne.1
    · exact absurd h0 (by push_neg; exact hne.2)
  · rw [if_neg h0, if_pos hviol]
    exact ⟨rfl, by simp, fun _ => rfl⟩

unseal Rat.add Rat.mul Rat.sub Rat.inv in
/-- C6 (witness): the amended theorem at a concrete violating call — a
non-empty sequence, positive rate, and `lowCut ≤ 0`. -/
theorem c6_bandpass_guard_witness :
    ((-1 : ℚ) ≤ 0 ∨ (10 : ℚ) ≤ -1 ∨ (100 : ℚ) / 2 ≤ 10) ∧
    ((bandpassFilter id [FP.fin 5] 100 (-1) 10).2 = [FP.fin 5] ∧
     (bandpassFilter id [FP.fin 5] 100 (-1) 10).1 ≠ .filtered ∧
     ([FP.fin 5] ≠ ([] : List FP) ∧ (0 : ℚ) < 100 →
       (bandpassFilter id [FP.fin 5] 100 (-1) 10).1 = .invalidParams)) :=
  ⟨Or.inl (by norm_num),
   c6_bandpass_guard id [FP.fin 5] 100 (-1) 10 (Or.inl (by norm_num))⟩

/-! ## SignalProcessor: montages (C4, C5, C10) -/

/-- `SignalProcessor::applyAverageReference` (Butterworth-era
SignalProcessor.h): per time index below the first channel's sample count,
non-finite values are zeroed in place, the mean of the finite originals is
computed (0 when none), and it is subtracted from every channel's
(cleaned) value; a non-finite subtraction result would be replaced by 0.
Channels shorter than the first are indexed out of bounds by the C++
(undefined behaviour); the model reads a zero default there, and the
montage theorems assume the uniform lengths the data model requires. -/
def avgRefValAt (chans : List (List FP)) (ch s : Nat) : FP :=
  (chans.getD ch []).getD s (.fin 0)

/-- The finite values across channels at time index `s` (the ones the
source accumulates into `sum`/`validChannels`). -/
def avgRefFins (chans : List (List FP)) (s : Nat) : List FP :=
  ((List.range chans.length).map (fun ch => avgRefValAt chans ch s)).filter FP.isFinite

/-- `average[s]`: mean of the finite values, 0 when there are none. -/
def avgRefMean (chans : List (List FP)) (s : Nat) : ℚ :=
  if (avgRefFins chans s).length = 0 then 0
  else ((avgRefFins chans s).map FP.toQ).sum / ((avgRefFins chans s).length : ℚ)

def applyAverageReference (chans : List (List FP)) : List (List FP) :=
  if chans = [] then chans
  else
    let numSamples := (chans.headD []).length
    let numChannels := chans.length
    if numChannels = 0 ∨ numSamples = 0 then chans
    else
      (List.range numChannels).map (fun ch =>
        (List.range numSamples).map (fun s =>
          let cleaned :=
            if (avgRefValAt chans ch s).isFinite then avgRefValAt chans ch s
            else .fin 0
          let r := cleaned.sub (.fin (avgRefMean chans s))
          if r.isFinite then r else .fin 0))

/-- The base name of a channel label: trailing decimal digits stripped
(`while (baseName.back().isDigit()) baseName.chop(1)`). -/
def stripTrailingDigits (s : String) : String :=
  String.mk ((s.data.reverse.dropWhile Char.isDigit).reverse)

/-- Lexicographic order on character lists, as `QMap<QString, …>` orders
its keys (code-unit comparison; identical to code-point comparison on
these Latin-1 labels). -/
def charListLt : List Char → List Char → Bool
  | [], [] => false
  | [], _ :: _ => true
  | _ :: _, [] => false
  | a :: as, b :: bs => if a < b then true else if b < a then false else charListLt as bs

/-- Inserts a channel index into the sorted group list keyed by base name,
keeping the key-sorted iteration order of `QMap`. -/
def insertGroup : List (String × List Nat) → String → Nat → List (String × List Nat)
  | [], base, i => [(base, [i])]
  | (k, is) :: rest, base, i =>
    if base = k then (k, is ++ [i]) :: rest
    else if charListLt base.data k.data then (base, [i]) :: (k, is) :: rest
    else (k, is) :: insertGroup rest base i

/-- The `channelGroups` map of `applyBipolarMontage`: indices grouped by
stripped base name, groups iterated in sorted key order. -/
def buildGroups (labels : List String) : List (String × List Nat) :=
  labels.enum.foldl (fun acc p => insertGroup acc (stripTrailingDigits p.2) p.1) []

/-- `QString::contains(QChar)` on a label. -/
def labelHasChar (s : String) (c : Char) : Bool :=
  s.data.contains c

/-- The odd-suffix test of the source: the label contains one of the
characters 3, 1, 5, 7, 9 (checked in that order, anywhere in the label). -/
def isLeftLabel (s : String) : Bool :=
  labelHasChar s '3' || labelHasChar s '1' || labelHasChar s '5' ||
    labelHasChar s '7' || labelHasChar s '9'

/-- The even-suffix test (the `else if` branch): contains 4, 2, 6, 8 or 0. -/
def isRightLabel (s : String) : Bool :=
  labelHasChar s '4' || labelHasChar s '2' || labelHasChar s '6' ||
    labelHasChar s '8' || labelHasChar s '0'

/-- The pairs formed inside one base-name group: the group's left-set and
right-set in index order, paired positionally (`i < min(size, size)` is a
`zip`).  An index lands in the right set only when the left test failed
(the source's `else if`). -/
def groupPairs (labels : List String) (indices : List Nat) : List (Nat × Nat) :=
  let left := indices.filter (fun i => isLeftLabel (labels.getD i ""))
  let right := indices.filter (fun i =>
    !isLeftLabel (labels.getD i "") && isRightLabel (labels.getD i ""))
  left.zip right

/-- All bipolar pairs: the per-group pairs in sorted-group order, or the
consecutive fallback `(0,1), (1,2), …` when no pattern-based pair exists. -/
def computeBipolarPairs (labels : List String) : List (Nat × Nat) :=
  let pairs := (buildGroups labels).foldl (fun acc g => acc ++ groupPairs labels g.2) []
  if pairs = [] then (List.range (labels.length - 1)).map (fun i => (i, i + 1))
  else pairs

/-- One bipolar pair's output: `left − right` sample by sample over the
first channel's length, 0 where either operand is non-finite. -/
def bipolarDiff (chans : List (List FP)) (p : Nat × Nat) : List FP :=
  (List.range (chans.headD []).length).map (fun j =>
    let a := (chans.getD p.1 []).getD j (.fin 0)
    let b := (chans.getD p.2 []).getD j (.fin 0)
    if a.isFinite && b.isFinite then a.sub b else .fin 0)

/-- The `hasValidData` flag of one pair: some index has both operands
finite. -/
def bipolarHasValid (chans : List (List FP)) (p : Nat × Nat) : Bool :=
  (List.range (chans.headD []).length).any (fun j =>
    ((chans.getD p.1 []).getD j (.fin 0)).isFinite &&
    ((chans.getD p.2 []).getD j (.fin 0)).isFinite)

/-- `SignalProcessor::applyBipolarMontage`: needs at least 2 channels;
forms pairs from the labels; each pair yields a difference sequence of the
first channel's length, with 0 where either operand is non-finite; a pair
with no index where both operands are finite contributes nothing; if no
pair contributed, the input is left unchanged. -/
def applyBipolarMontage (chans : List (List FP)) (channelLabels : List String) :
    List (List FP) :=
  if chans.length < 2 then chans
  else
    let pairs := computeBipolarPairs channelLabels
    if pairs = [] then chans
    else
      let bipolarData :=
        (pairs.filter (bipolarHasValid chans)).map (bipolarDiff chans)
      if bipolarData = [] then chans else bipolarData

/-- `SignalProcessor::applyLaplacianMontage`: needs at least 3 channels;
first zeroes every non-finite value, then replaces each value below the
first channel's sample count by `value − mean(existing neighbours)`; in
the exact-rational model every cleaned value is finite, so the source's
residual non-finite checks cannot fire (they are kept as guards). -/
def applyLaplacianMontage (chans : List (List FP)) : List (List FP) :=
  if chans.length < 3 then chans
  else
    let cleaned := chans.map (List.map (fun v => if v.isFinite then v else .fin 0))
    let numChannels := chans.length
    let numSamples := (cleaned.headD []).length
    (List.range numChannels).map (fun ch =>
      (cleaned.getD ch []).mapIdx (fun s v =>
        if s < numSamples then
          let nbrs :=
            ((if 0 < ch then [(cleaned.getD (ch - 1) []).getD s (.fin 0)] else []) ++
             (if ch < numChannels - 1 then [(cleaned.getD (ch + 1) []).getD s (.fin 0)]
              else [])).filter FP.isFinite
          let lap :=
            if nbrs.length ≠ 0 ∧ v.isFinite then
              let avg := (nbrs.map FP.toQ).sum / (nbrs.length : ℚ)
              let r := v.sub (.fin avg)
              if r.isFinite then r else v
            else if v.isFinite then v else .fin 0
          if lap.isFinite then lap else .fin 0
        else v))

/-- `SignalProcessor::MontageType` (the three-member enum of the
Butterworth-era header). -/
inductive MontageType where
  | bipolar
  | averageReference
  | laplacian
deriving DecidableEq

/-- `SignalProcessor::applyMontage`: returns unmodified on empty input,
zeroes NaN values (`std::isnan` — infinities pass through), and dispatches
on the montage kind. -/
def applyMontage (allChannelData : List (List FP)) (channelLabels : List String)
    (montage : MontageType) : List (List FP) :=
  if allChannelData = [] then allChannelData
  else
    let cleaned := allChannelData.map (List.map (fun v => if v.isNaN then .fin 0 else v))
    match montage with
    | .averageReference => applyAverageReference cleaned
    | .bipolar => applyBipolarMontage cleaned channelLabels
    | .laplacian => applyLaplacianMontage cleaned

/-- The write-back loop of `EEGData::applyMontage`: channel `i` receives
the `i`-th processed sequence for `i < min(channelCount, outputCount)`;
all other channels are untouched. -/
def writebackData : List EEGChannel → List (List FP) → List EEGChannel
  | [], _ => []
  | c :: cs, [] => c :: cs
  | c :: cs, v :: vs => { c with data := v } :: writebackData cs vs

/-- The processed sequences `EEGData::applyMontage` computes before the
write-back: the montage applied to a snapshot of the channel data and
labels. -/
def montageOutput (d : EEGData) (m : MontageType) : List (List FP) :=
  applyMontage (d.channels.map EEGChannel.data) (d.channels.map EEGChannel.label) m

/-- `EEGData::applyMontage` (EEGFileHandler.cpp third section): snapshots
all channel data and labels, runs the montage, and writes the first
`min(channelCount, outputCount)` sequences back by index. -/
def EEGData.applyMontage (d : EEGData) (m : MontageType) : EEGData :=
  { d with channels := writebackData d.channels (montageOutput d m) }

unseal Rat.add Rat.mul Rat.sub Rat.inv in
/-- C4 (counterexample): applying the bipolar montage to two equal-length
sequences labeled C3/C4 does not always produce exactly one output
sequence: with two empty sequences no pair has an index where both values
are finite, so nothing is appended and the two input sequences are
returned unchanged. -/
theorem c4_bipolar_empty_input :
    applyBipolarMontage [([] : List FP), []] ["C3", "C4"] = [[], []] ∧
    ([[], []] : List (List FP)).length ≠ 1 := by
  refine ⟨by decide, by decide⟩

/-- C4 (amended): applying the bipolar montage to exactly 2 equal-length
channel sequences labeled C3 and C4 produces exactly 1 output sequence
provided some index has both values finite; at each index the output is
the C3 value minus the C4 value when both are finite and 0 otherwise
(so it is exactly elementwise C3 − C4 whenever all values are finite).
With empty inputs, or none where both values are finite, the 2 input
sequences are instead returned unchanged. -/
theorem c4_bipolar_c3_minus_c4 (a b : List FP) (_hlen : b.length = a.length)
    (j0 : Nat) (hj0 : j0 < a.length)
    (hfa : (a.getD j0 (.fin 0)).isFinite = true)
    (hfb : (b.getD j0 (.fin 0)).isFinite = true) :
    applyBipolarMontage [a, b] ["C3", "C4"] =
      [(List.range a.length).map (fun j =>
        if (a.getD j (.fin 0)).isFinite && (b.getD j (.fin 0)).isFinite
        then (a.getD j (.fin 0)).sub (b.getD j (.fin 0)) else FP.fin 0)] := by
  have hpairs : computeBipolarPairs ["C3", "C4"] = [(0, 1)] := by decide
  have hvalid : bipolarHasValid [a, b] (0, 1) = true := by
    unfold bipolarHasValid
    rw [List.any_eq_true]
    refine ⟨j0, List.mem_range.mpr hj0, ?_⟩
    rw [show (([a, b] : List (List FP)).getD 0 []) = a from rfl,
      show (([a, b] : List (List FP)).getD 1 []) = b from rfl, hfa, hfb]
    rfl
  unfold applyBipolarMontage
  rw [if_neg (by simp)]
  dsimp only
  rw [hpairs]
  rw [if_neg (by simp)]
  simp only [List.filter_cons, List.filter_nil, hvalid, if_true, List.map_cons,
    List.map_nil]
  rw [if_neg (by simp)]
  rfl

unseal Rat.add Rat.mul Rat.sub Rat.inv in
/-- C4 (witness): the amended theorem on the concrete sequences
[5, 7] and [2, 3] labeled C3/C4. -/
theorem c4_bipolar_c3_minus_c4_witness :
    ([FP.fin 2, FP.fin 3].length = [FP.fin 5, FP.fin 7].length) ∧
    (0 < [FP.fin 5, FP.fin 7].length) ∧
    (([FP.fin 5, FP.fin 7].getD 0 (.fin 0)).isFinite = true) ∧
    (([FP.fin 2, FP.fin 3].getD 0 (.fin 0)).isFinite = true) ∧
    applyBipolarMontage [[FP.fin 5, FP.fin 7], [FP.fin 2, FP.fin 3]] ["C3", "C4"] =
      [(List.range [FP.fin 5, FP.fin 7].length).map (fun j =>
        if ([FP.fin 5, FP.fin 7].getD j (.fin 0)).isFinite &&
            ([FP.fin 2, FP.fin 3].getD j (.fin 0)).isFinite
        then ([FP.fin 5, FP.fin 7].getD j (.fin 0)).sub
          ([FP.fin 2, FP.fin 3].getD j (.fin 0)) else FP.fin 0)] :=
  ⟨by decide, by decide, by decide, by decide,
   c4_bipolar_c3_minus_c4 [FP.fin 5, FP.fin 7] [FP.fin 2, FP.fin 3] (by decide)
     0 (by decide) (by decide) (by decide)⟩

/-- Reading a freshly built index map below its length. -/
theorem getD_range_map {β : Type} (g : Nat → β) (n s : Nat) (d : β) (h : s < n) :
    ((List.range n).map g).getD s d = g s := by
  rw [List.getD_eq_getElem _ _ (by simpa using h)]
  simp

/-- Sums of pointwise differences. -/
theorem list_sum_map_sub {α : Type} (l : List α) (f g : α → ℚ) :
    (l.map fun x => f x - g x).sum = (l.map f).sum - (l.map g).sum := by
  induction l with
  | nil => simp
  | cons x t ih => simp only [List.map_cons, List.sum_cons, ih]; ring

/-- Sum of a constant map. -/
theorem list_sum_map_const {α : Type} (l : List α) (c : ℚ) :
    (l.map fun _ => c).sum = (l.length : ℚ) * c := by
  induction l with
  | nil => simp
  | cons x t ih =>
    simp only [List.map_cons, List.sum_cons, List.length_cons, ih]
    push_cast
    ring

/-- A value is finite exactly when it is a `fin`. -/
theorem fp_isFinite_iff (v : FP) : v.isFinite = true ↔ ∃ q, v = .fin q := by
  cases v <;> simp [FP.isFinite]

/-- The sum, over all channels, of the (finite-part) values at time index
`s` — the quantity the average-reference claim says vanishes after the
montage. -/
def sumAtQ (chans : List (List FP)) (s : Nat) : ℚ :=
  (chans.map (fun c => (c.getD s (.fin 0)).toQ)).sum

/-- C5: after `applyAverageReference` on uniformly-long channels, the
channel values at any time index where all originals were finite sum to
exactly 0 (the model computes in exact rationals, so "within
floating-point tolerance" is exact here). -/
theorem c5_average_reference_zero_sum (chans : List (List FP))
    (hne : chans ≠ [])
    (_hU : ∀ c ∈ chans, c.length = (chans.headD []).length)
    (s : Nat) (hs : s < (chans.headD []).length)
    (hf : ∀ c ∈ chans, (c.getD s (.fin 0)).isFinite = true) :
    sumAtQ (applyAverageReference chans) s = 0 := by
  have hnc : chans.length ≠ 0 := fun hz => hne (List.length_eq_zero.mp hz)
  have hns : (chans.headD []).length ≠ 0 := by omega
  have hfin : ∀ ch, ch < chans.length → (avgRefValAt chans ch s).isFinite = true := by
    intro ch h
    have hm : chans.getD ch [] ∈ chans := by
      rw [List.getD_eq_getElem _ _ h]
      exact List.getElem_mem _
    exact hf _ hm
  have hfins : avgRefFins chans s =
      (List.range chans.length).map (fun ch => avgRefValAt chans ch s) := by
    unfold avgRefFins
    apply List.filter_eq_self.mpr
    intro v hv
    obtain ⟨ch, hch, rfl⟩ := List.mem_map.mp hv
    exact hfin ch (List.mem_range.mp hch)
  have hlenfins : (avgRefFins chans s).length = chans.length := by
    rw [hfins, List.length_map, List.length_range]
  have hmean : avgRefMean chans s =
      (((List.range chans.length).map (fun ch => avgRefValAt chans ch s)).map
        FP.toQ).sum / (chans.length : ℚ) := by
    unfold avgRefMean
    rw [if_neg (by rw [hlenfins]; exact hnc), hlenfins, hfins]
  have happ : applyAverageReference chans =
      (List.range chans.length).map (fun ch =>
        (List.range (chans.headD []).length).map (fun t =>
          let cleaned :=
            if (avgRefValAt chans ch t).isFinite then avgRefValAt chans ch t
            else .fin 0
          let r := cleaned.sub (.fin (avgRefMean chans t))
          if r.isFinite then r else .fin 0)) := by
    unfold applyAverageReference
    rw [if_neg hne, if_neg (by push_neg; exact ⟨hnc, hns⟩)]
  rw [happ]
  unfold sumAtQ
  rw [List.map_map]
  have hmapeq : ∀ ch ∈ List.range chans.length,
      ((fun c => (List.getD c s (FP.fin 0)).toQ) ∘ (fun ch =>
        (List.range (chans.headD []).length).map (fun t =>
          let cleaned :=
            if (avgRefValAt chans ch t).isFinite then avgRefValAt chans ch t
            else .fin 0
          let r := cleaned.sub (.fin (avgRefMean chans t))
          if r.isFinite then r else .fin 0))) ch =
      (avgRefValAt chans ch s).toQ - avgRefMean chans s := by
    intro ch hch
    have hch' := List.mem_range.mp hch
    simp only [Function.comp]
    rw [getD_range_map _ _ _ _ hs]
    obtain ⟨q, hq⟩ := (fp_isFinite_iff _).mp (hfin ch hch')
    rw [hq]
    simp [FP.isFinite, FP.sub, FP.toQ]
  rw [List.map_congr_left hmapeq, list_sum_map_sub, list_sum_map_const,
    List.length_range, hmean]
  have hcast : (chans.length : ℚ) ≠ 0 := Nat.cast_ne_zero.mpr hnc
  rw [List.map_map, mul_div_cancel₀ _ hcast]
  have : (FP.toQ ∘ fun ch => avgRefValAt chans ch s) =
      (fun a => (avgRefValAt chans a s).toQ) := rfl
  rw [this, sub_self]

unseal Rat.add Rat.mul Rat.sub Rat.inv in
/-- C5 (witness): the zero-sum theorem at the concrete 2×2 recording
[[1, 2], [3, 6]] and time index 0. -/
theorem c5_average_reference_zero_sum_witness :
    (([[FP.fin 1, FP.fin 2], [FP.fin 3, FP.fin 6]] : List (List FP)) ≠ []) ∧
    (∀ c ∈ ([[FP.fin 1, FP.fin 2], [FP.fin 3, FP.fin 6]] : List (List FP)),
      c.length = (([[FP.fin 1, FP.fin 2], [FP.fin 3, FP.fin 6]] :
        List (List FP)).headD []).length) ∧
    (0 < (([[FP.fin 1, FP.fin 2], [FP.fin 3, FP.fin 6]] :
      List (List FP)).headD []).length) ∧
    (∀ c ∈ ([[FP.fin 1, FP.fin 2], [FP.fin 3, FP.fin 6]] : List (List FP)),
      (c.getD 0 (.fin 0)).isFinite = true) ∧
    sumAtQ (applyAverageReference [[FP.fin 1, FP.fin 2], [FP.fin 3, FP.fin 6]]) 0 = 0 :=
  ⟨by decide, by decide, by decide, by decide,
   c5_average_reference_zero_sum [[FP.fin 1, FP.fin 2], [FP.fin 3, FP.fin 6]]
     (by decide) (by decide) 0 (by decide) (by decide)⟩

/-- Default channel value used for out-of-range `getD` reads in theorem
statements. -/
def defaultChannel : EEGChannel :=
  { label := "", unit := "" }

/-- The write-back never changes the channel count. -/
theorem writebackData_length : ∀ (cs : List EEGChannel) (vs : List (List FP)),
    (writebackData cs vs).length = cs.length := by
  intro cs
  induction cs with
  | nil => intro vs; rfl
  | cons c ct ih =>
    intro vs
    cases vs with
    | nil => rfl
    | cons v vt => simp [writebackData, ih vt]

/-- The write-back leaves every projection other than the sample data
unchanged on every channel. -/
theorem writebackData_map_proj {α : Type} (f : EEGChannel → α)
    (hf : ∀ (c : EEGChannel) (v : List FP), f { c with data := v } = f c) :
    ∀ (cs : List EEGChannel) (vs : List (List FP)),
    (writebackData cs vs).map f = cs.map f := by
  intro cs
  induction cs with
  | nil => intro vs; rfl
  | cons c ct ih =>
    intro vs
    cases vs with
    | nil => rfl
    | cons v vt => simp [writebackData, hf, ih vt]

/-- Channels past the processed-sequence count keep their sample data. -/
theorem writebackData_getD_data : ∀ (cs : List EEGChannel) (vs : List (List FP))
    (i : Nat), vs.length ≤ i →
    ((writebackData cs vs).getD i defaultChannel).data =
      (cs.getD i defaultChannel).data := by
  intro cs
  induction cs with
  | nil => intro vs i _; rfl
  | cons c ct ih =>
    intro vs i hi
    cases vs with
    | nil => rfl
    | cons v vt =>
      cases i with
      | zero => simp at hi
      | succ j =>
        simp only [writebackData, List.getD_cons_succ]
        exact ih vt j (by simpa using hi)

/-- C10: `EEGData::applyMontage` never changes the channel count; every
channel keeps its label, unit, sampling rate and calibration fields; and
every channel at an index at or beyond the montage's output count (as with
`Bipolar`, which produces fewer sequences than channels) keeps its
previous sample data.  The uniform-length hypothesis is the data-model
requirement under which the C++ montages are well-defined. -/
theorem c10_applyMontage_frame (d : EEGData) (m : MontageType)
    (_hU : ∀ c ∈ d.channels,
      c.data.length = ((d.channels.headD defaultChannel).data).length) :
    (d.applyMontage m).channels.length = d.channels.length ∧
    (d.applyMontage m).channels.map EEGChannel.label =
      d.channels.map EEGChannel.label ∧
    (d.applyMontage m).channels.map EEGChannel.unit =
      d.channels.map EEGChannel.unit ∧
    (d.applyMontage m).channels.map EEGChannel.samplingRate =
      d.channels.map EEGChannel.samplingRate ∧
    (d.applyMontage m).channels.map EEGChannel.physicalMin =
      d.channels.map EEGChannel.physicalMin ∧
    (d.applyMontage m).channels.map EEGChannel.physicalMax =
      d.channels.map EEGChannel.physicalMax ∧
    (d.applyMontage m).channels.map EEGChannel.digitalMin =
      d.channels.map EEGChannel.digitalMin ∧
    (d.applyMontage m).channels.map EEGChannel.digitalMax =
      d.channels.map EEGChannel.digitalMax ∧
    ∀ i, (montageOutput d m).length ≤ i →
      ((d.applyMontage m).channels.getD i defaultChannel).data =
        (d.channels.getD i defaultChannel).data := by
  unfold EEGData.applyMontage
  refine ⟨writebackData_length _ _,
    writebackData_map_proj EEGChannel.label (fun c v => rfl) _ _,
    writebackData_map_proj EEGChannel.unit (fun c v => rfl) _ _,
    writebackData_map_proj EEGChannel.samplingRate (fun c v => rfl) _ _,
    writebackData_map_proj EEGChannel.physicalMin (fun c v => rfl) _ _,
    writebackData_map_proj EEGChannel.physicalMax (fun c v => rfl) _ _,
    writebackData_map_proj EEGChannel.digitalMin (fun c v => rfl) _ _,
    writebackData_map_proj EEGChannel.digitalMax (fun c v => rfl) _ _,
    fun i hi => writebackData_getD_data _ _ i hi⟩

/-- A concrete two-channel recording for the montage frame witness. -/
def twoChannelRecording : EEGData :=
  { channels :=
      [{ label := "C3", unit := "uV", data := [FP.fin 5, FP.fin 7] },
       { label := "C4", unit := "uV", data := [FP.fin 2, FP.fin 3] }],
    patientInfo := "p", recordingInfo := "r",
    startDateTime := .currentTime 0 }

unseal Rat.add Rat.mul Rat.sub Rat.inv in
/-- C10 (witness): the frame theorem on a concrete two-channel recording
under the bipolar montage (which outputs a single sequence). -/
theorem c10_applyMontage_frame_witness :
    (∀ c ∈ twoChannelRecording.channels,
      c.data.length =
        ((twoChannelRecording.channels.headD defaultChannel).data).length) ∧
    ((twoChannelRecording.applyMontage .bipolar).channels.length =
        twoChannelRecording.channels.length ∧
      (twoChannelRecording.applyMontage .bipolar).channels.map EEGChannel.label =
        twoChannelRecording.channels.map EEGChannel.label ∧
      (twoChannelRecording.applyMontage .bipolar).channels.map EEGChannel.unit =
        twoChannelRecording.channels.map EEGChannel.unit ∧
      (twoChannelRecording.applyMontage .bipolar).channels.map
          EEGChannel.samplingRate =
        twoChannelRecording.channels.map EEGChannel.samplingRate ∧
      (twoChannelRecording.applyMontage .bipolar).channels.map
          EEGChannel.physicalMin =
        twoChannelRecording.channels.map EEGChannel.physicalMin ∧
      (twoChannelRecording.applyMontage .bipolar).channels.map
          EEGChannel.physicalMax =
        twoChannelRecording.channels.map EEGChannel.physicalMax ∧
      (twoChannelRecording.applyMontage .bipolar).channels.map
          EEGChannel.digitalMin =
        twoChannelRecording.channels.map EEGChannel.digitalMin ∧
      (twoChannelRecording.applyMontage .bipolar).channels.map
          EEGChannel.digitalMax =
        twoChannelRecording.channels.map EEGChannel.digitalMax ∧
      ∀ i, (montageOutput twoChannelRecording .bipolar).length ≤ i →
        ((twoChannelRecording.applyMontage .bipolar).channels.getD i
            defaultChannel).data =
          (twoChannelRecording.channels.getD i defaultChannel).data) :=
  ⟨by decide, c10_applyMontage_frame twoChannelRecording .bipolar (by decide)⟩

/-! ## Spectrogram window arithmetic (C7) -/

/-- The fixed window size of `MainWindow::showSpectrogram`. -/
def spectrogramWindowSize : ℤ := 256

/-- The fixed hop size of `MainWindow::showSpectrogram`. -/
def spectrogramHopSize : ℤ := 64

/-- `int numWindows = (channel.data.size() - windowSize) / hopSize + 1`:
C++ `int` division truncates toward zero. -/
def spectrogramNumWindows (n : ℤ) : ℤ :=
  Int.tdiv (n - spectrogramWindowSize) spectrogramHopSize + 1

/-- Negation of the `numWindows < 1` insufficient-data guard: `true` when
the window loop runs. -/
def spectrogramProceeds (n : ℤ) : Bool :=
  decide (1 ≤ spectrogramNumWindows n)

/-- When the computation proceeds, the largest sample index the window
loop reads: window `numWindows−1` starts at `(numWindows−1)·hopSize` and
reads `windowSize` samples. -/
def spectrogramMaxIndexRead (n : ℤ) : ℤ :=
  (spectrogramNumWindows n - 1) * spectrogramHopSize + (spectrogramWindowSize - 1)

/-- C7 (code bug): for a channel of N = 200 samples the claim's window
count `⌊(N − 256)/64⌋ + 1` is 0, so the insufficient-data error should be
reported and no sample index outside [0, 199] read; but the source's `int`
division truncates toward zero, giving `numWindows = (−56)/64 + 1 = 1`, so
the guard passes and window 0 reads indices 0…255 — beyond the end of the
200-sample buffer. -/
theorem c7_spectrogram_truncation_bug :
    spectrogramNumWindows 200 = 1 ∧
    Int.fdiv (200 - spectrogramWindowSize) spectrogramHopSize + 1 = 0 ∧
    spectrogramProceeds 200 = true ∧
    spectrogramMaxIndexRead 200 = 255 ∧
    (200 : ℤ) - 1 < spectrogramMaxIndexRead 200 := by
  refine ⟨by decide, by decide, by decide, by decide, by decide⟩

/-! ## CSV writer (C9) -/

/-- Fixed-width zero padding of the fractional digits. -/
def padZeros6 (s : String) : String :=
  String.mk (List.replicate (6 - s.length) '0') ++ s

/-- `QString::number(x, 'f', 6)` on an exactly-represented double: sign,
integer part, and exactly six fractional digits.  (The model rounds exact
halves away from zero; the doubles in the theorems below are exact at six
decimals, so no tie-rounding is exercised.) -/
def fmt6 (q : ℚ) : String :=
  let sign := if q < 0 then "-" else ""
  let n : Nat := (⌊|q| * 1000000 + 1/2⌋).toNat
  sign ++ toString (n / 1000000) ++ "." ++ padZeros6 (toString (n % 1000000))

/-- One CSV cell for a sample value (`QString::number` prints non-finite
doubles as nan/inf). -/
def fmtCell : FP → String
  | .fin q => fmt6 q
  | .nan => "nan"
  | .pinf => "inf"
  | .ninf => "-inf"

/-- The sampling-rate scan of `saveCSV`: starts from the 250 Hz default
and overwrites it with each channel's rate that is positive — ending with
the LAST channel having a positive rate. -/
def csvLastPositiveRate (d : EEGData) : ℚ :=
  d.channels.foldl (fun acc ch => if 0 < ch.samplingRate then ch.samplingRate else acc) 250

/-- `maxSamples`: the longest channel's sample count. -/
def csvMaxSamples (d : EEGData) : Nat :=
  d.channels.foldl (fun acc ch => max acc ch.data.length) 0

/-- The header line `saveCSV` streams out. -/
def csvHeaderLine (d : EEGData) : String :=
  "Time(s)" ++ String.join (d.channels.map (fun ch => "," ++ ch.label))

/-- One data line: the time cell at 6 decimals, then per channel either
the sample at 6 decimals or the bare padding literal `"0"` when the
channel is shorter than the row index. -/
def csvDataLine (d : EEGData) (rate : ℚ) (sample : Nat) : String :=
  fmt6 ((sample : ℚ) / rate) ++
    String.join (d.channels.map (fun ch =>
      "," ++ (if sample < ch.data.length then fmtCell (ch.data.getD sample (.fin 0))
              else "0")))

/-- `saveCSV` (EEGFileHandler.cpp): fails on an empty recording, else
streams the header line and one line per sample row of the longest
channel. -/
def saveCSV (d : EEGData) : Option (List String) :=
  if d.channels.isEmpty then none
  else
    some (csvHeaderLine d ::
      (List.range (csvMaxSamples d)).map (csvDataLine d (csvLastPositiveRate d)))

/-- `EEGFileHandler::saveFile` dispatch: the lower-cased extension `edf`
goes to the EDF writer, anything else to the CSV writer. -/
inductive SaveTarget where
  | edf
  | csv
deriving DecidableEq

/-- Which writer `saveFile` picks for a lower-cased extension. -/
def saveFileTarget (extLower : String) : SaveTarget :=
  if extLower = "edf" then .edf else .csv

/-- Comma-joined row assembly: the first cell, then each further cell
prefixed by a comma. -/
def joinCells : List String → String
  | [] => ""
  | c :: cs => c ++ String.join (cs.map (fun x => "," ++ x))

/-- The claim's description of the CSV output, as structured rows: one
header row; one row per time sample whose time column uses the FIRST
channel's sampling rate, with every value (padding included) written to 6
decimal places. -/
def saveCSVclaimRows (d : EEGData) : List (List String) :=
  ("Time(s)" :: d.channels.map EEGChannel.label) ::
  (List.range (csvMaxSamples d)).map (fun (sample : Nat) =>
    fmt6 ((sample : ℚ) / (d.channels.headD defaultChannel).samplingRate) ::
      d.channels.map (fun ch =>
        if sample < ch.data.length then fmtCell (ch.data.getD sample (.fin 0))
        else fmt6 0))

/-- The amended description: the time column uses the LAST channel with a
positive sampling rate (250 Hz when none), in-range values are written to
6 decimal places, and rows beyond a channel's length carry the bare
literal `0`. -/
def saveCSVamendedRows (d : EEGData) : List (List String) :=
  ("Time(s)" :: d.channels.map EEGChannel.label) ::
  (List.range (csvMaxSamples d)).map (fun (sample : Nat) =>
    fmt6 ((sample : ℚ) / csvLastPositiveRate d) ::
      d.channels.map (fun ch =>
        if sample < ch.data.length then fmtCell (ch.data.getD sample (.fin 0))
        else "0"))

/-- The two-channel recording of the C9 counterexample: channel A at
100 Hz with one sample, channel B at 200 Hz with two. -/
def csvRecording : EEGData :=
  { channels :=
      [{ label := "A", unit := "uV", samplingRate := 100, data := [FP.fin (3/2)] },
       { label := "B", unit := "uV", samplingRate := 200,
         data := [FP.fin (3/2), FP.fin (5/2)] }],
    patientInfo := "p", recordingInfo := "r",
    startDateTime := .currentTime 0 }

set_option maxRecDepth 100000 in
unseal Rat.add Rat.mul Rat.sub Rat.inv in
/-- C9 (counterexample): on a recording whose channels have different
positive rates and different lengths, the writer's second data row uses
the LAST positive rate (time 1/200 s, not the first channel's 1/100 s) and
pads the exhausted channel with the bare literal `0`, not a 6-decimal
value; so the output differs from the claim's description. -/
theorem c9_first_rate_claim_false :
    saveCSV csvRecording =
      some ["Time(s),A,B",
            "0.000000,1.500000,1.500000",
            "0.005000,0,2.500000"] ∧
    (saveCSVclaimRows csvRecording).map joinCells =
      ["Time(s),A,B",
       "0.000000,1.500000,1.500000",
       "0.010000,0.000000,2.500000"] ∧
    some ((saveCSVclaimRows csvRecording).map joinCells) ≠ saveCSV csvRecording := by
  refine ⟨by decide, by decide, by decide⟩

/-- C9 (amended): for every non-empty recording saved to a path whose
lower-cased extension is not `.edf`, `saveFile` dispatches to the CSV
writer, which emits one header row and then one row per time sample of the
longest channel; the time column uses the last channel with a positive
sampling rate (250 Hz default when none — not the first channel's rate),
in-range values are written to 6 decimal places, and a row beyond a
channel's length is padded with the bare literal `0`. -/
theorem c9_csv_writer_shape (d : EEGData) (ext : String)
    (hne : d.channels ≠ []) (hext : ext ≠ "edf") :
    saveFileTarget ext = .csv ∧
    saveCSV d = some ((saveCSVamendedRows d).map joinCells) := by
  constructor
  · unfold saveFileTarget
    rw [if_neg hext]
  · unfold saveCSV saveCSVamendedRows csvHeaderLine csvDataLine
    rw [if_neg (by simpa using hne)]
    refine congrArg some ?_
    simp only [List.map_cons, List.map_map]
    refine congrArg₂ (· :: ·) ?_ (List.map_congr_left (fun sample _ => ?_))
    · simp only [joinCells, List.map_map]
      rfl
    · simp only [Function.comp_apply, joinCells, List.map_map]
      rfl

set_option maxRecDepth 100000 in
unseal Rat.add Rat.mul Rat.sub Rat.inv in
/-- Witness instantiating the amended C9 statement on the concrete
two-channel recording and the extension `csv`. -/
theorem c9_csv_writer_shape_witness :
    csvRecording.channels ≠ [] ∧ "csv" ≠ "edf" ∧
    (saveFileTarget "csv" = .csv ∧
     saveCSV csvRecording = some ((saveCSVamendedRows csvRecording).map joinCells)) :=
  ⟨List.cons_ne_nil _ _, by decide,
   c9_csv_writer_shape csvRecording "csv" (List.cons_ne_nil _ _) (by decide)⟩
